import Mathlib

/-!
Shallow embedding of the clawbot core runtime (memory subsystem, embedding
worker, OpenAI-compatible HTTP channel) and proofs about the claims of the
natural-language specification.

Source files embedded here:
  - nanobot/agent/memory.py        (file memory backend)
  - nanobot/agent/memory_pg.py     (relational memory backend)
  - baibo/agent/memory_worker.py   (pgmq embedding worker)
  - nanobot/channels/openapi.py    (OpenAI-compatible HTTP channel)

Conventions of the embedding:
  - Async methods are modelled as pure state-passing functions.
  - Calendar dates are modelled as integers (one unit per day); the external
    date-formatting helper `today_date()` / Python `str(date)` is an abstract
    parameter `dateStr : Int -> String`.
  - SQL `ORDER BY` is modelled by an executable stable insertion sort.
  - Fallible external calls (embedding API, SQL UPDATE) are modelled as
    oracle arguments (`Option`-valued result, success flag).
  - Python `"sep".join(xs)` is `joinSep sep xs` below.
-/

/-- Python `"sep".join(xs)`: empty list yields the empty string, singleton
yields the element, otherwise elements interleaved with the separator. -/
def joinSep (sep : String) : List String → String
  | [] => ""
  | [a] => a
  | a :: b :: rest => a ++ sep ++ joinSep sep (b :: rest)

/-- Insert `a` into a list assumed sorted by `le`, keeping it sorted
(stable: `a` goes before later elements it ties with). -/
def insertSorted (le : α → α → Bool) (a : α) : List α → List α
  | [] => [a]
  | b :: l => if le a b then a :: b :: l else b :: insertSorted le a l

/-- Stable insertion sort; models SQL `ORDER BY` with ordering `le`. -/
def sortBy (le : α → α → Bool) : List α → List α
  | [] => []
  | a :: l => insertSorted le a (sortBy le l)

/-! ## File memory backend (`nanobot/agent/memory.py`, class `MemoryStore`)

The filesystem under `<workspace>/memory/` is modelled as a map from file
name to file content (`none` = file does not exist).  `MemoryStore` keeps
the two ingredients the methods actually read from the environment: the
current day and the date-formatting helper `today_date()`. -/

/-- Contents of the `memory/` directory: file name to text. -/
def FS : Type := String → Option String

/-- Overwriting write (`Path.write_text`). -/
def fsWrite (fs : FS) (name content : String) : FS :=
  fun q => if q == name then some content else fs q

/-- Environment of a file `MemoryStore`: date formatting and current day. -/
structure MemoryStore where
  dateStr : Int → String
  today : Int

namespace MemoryStore

/-- Name of the long-term memory file. -/
def memory_file : String := "MEMORY.md"

/-- Name of today's memory file (`get_today_file`). -/
def get_today_file (s : MemoryStore) : String := s.dateStr s.today ++ ".md"

/-- Read today's memory notes; empty string when the file is absent. -/
def read_today (s : MemoryStore) (fs : FS) : String :=
  match fs s.get_today_file with
  | some c => c
  | none => ""

/-- Append content to today's notes: existing file gets `existing ++ "\n" ++
content`, a fresh file gets a `# YYYY-MM-DD` header first. -/
def append_today (s : MemoryStore) (fs : FS) (content : String) : FS :=
  match fs s.get_today_file with
  | some existing => fsWrite fs s.get_today_file (existing ++ "\n" ++ content)
  | none =>
      fsWrite fs s.get_today_file ("# " ++ s.dateStr s.today ++ "\n\n" ++ content)

/-- Read long-term memory (`MEMORY.md`); empty string when absent. -/
def read_long_term (_s : MemoryStore) (fs : FS) : String :=
  match fs memory_file with
  | some c => c
  | none => ""

/-- Write long-term memory: overwrite `MEMORY.md`. -/
def write_long_term (_s : MemoryStore) (fs : FS) (content : String) : FS :=
  fsWrite fs memory_file content

/-- Memories of the last `days` days: for `i` in `range(days)` read the file
dated `today - i` when it exists, join with the horizontal-rule separator. -/
def get_recent_memories (s : MemoryStore) (fs : FS) (days : Nat) : String :=
  let memories :=
    (List.range days).filterMap
      (fun (i : Nat) => fs (s.dateStr (s.today - (i : Int)) ++ ".md"))
  joinSep "\n\n---\n\n" memories

end MemoryStore

/-! ## Relational memory backend (`nanobot/agent/memory_pg.py`,
class `PostgresMemoryStore`)

Rows of the dimension-suffixed tables are modelled explicitly; vectors are
abstract `List Int` (their numeric content never matters for the claims).
`BIGSERIAL` id assignment is modelled by per-table counters; an `INSERT`
appends at the end of the row list.  The pgmq queue is the list of
`{table, id, content, dimensions}` messages sent so far. -/

/-- One row of a `memory_daily_dim<N>` table. -/
structure DailyRow where
  id : Nat
  entry_date : Int
  content : String
  embedding : Option (List Int)
deriving Repr, DecidableEq

/-- One row of a `memory_long_term_dim<N>` table. -/
structure LongTermRow where
  id : Nat
  content : String
  embedding : Option (List Int)
  version : Int
deriving Repr, DecidableEq

/-- A pgmq `memory_embedding` queue message `{table, id, content, dimensions}`. -/
structure QueueMsg where
  table : String
  id : Nat
  content : String
  dimensions : Nat
deriving Repr, DecidableEq

/-- Database state seen by one `PostgresMemoryStore` (its dimension's daily
and long-term tables) together with the pgmq queue. -/
structure PgState where
  daily : List DailyRow
  long_term : List LongTermRow
  queue : List QueueMsg
  daily_next_id : Nat
  lt_next_id : Nat
deriving Repr, DecidableEq

namespace PostgresMemoryStore

/-- Dimension-suffixed daily table name. -/
def daily_table (dimensions : Nat) : String :=
  "memory_daily_dim" ++ toString dimensions

/-- Dimension-suffixed long-term table name. -/
def long_term_table (dimensions : Nat) : String :=
  "memory_long_term_dim" ++ toString dimensions

/-- SQL ordering `ORDER BY id` on daily rows. -/
def byId (a b : DailyRow) : Bool := a.id ≤ b.id

/-- SQL ordering `ORDER BY entry_date DESC, id` on daily rows. -/
def byDateDescId (a b : DailyRow) : Bool :=
  decide (b.entry_date < a.entry_date) ||
    (a.entry_date == b.entry_date && decide (a.id ≤ b.id))

/-- SQL ordering `ORDER BY version DESC` on long-term rows. -/
def byVersionDesc (a b : LongTermRow) : Bool := b.version ≤ a.version

/-- Read all entries for today: `SELECT content .. WHERE entry_date =
CURRENT_DATE ORDER BY id`, joined by newlines; empty string when no rows. -/
def read_today (st : PgState) (today : Int) : String :=
  let results := sortBy byId (st.daily.filter (fun r => r.entry_date == today))
  if results.isEmpty then ""
  else joinSep "\n" (results.map (·.content))

/-- Insert a daily entry (entry_date defaults to `CURRENT_DATE`) and enqueue
the embedding job `{table, id, content, dimensions}`. -/
def append_today (st : PgState) (dimensions : Nat) (today : Int)
    (content : String) : PgState :=
  let record_id := st.daily_next_id
  { st with
    daily := st.daily ++ [⟨record_id, today, content, none⟩]
    daily_next_id := record_id + 1
    queue := st.queue ++ [⟨daily_table dimensions, record_id, content, dimensions⟩] }

/-- SQL `MAX(version)` over the long-term table (`none` when empty). -/
def sqlMaxVersion : List LongTermRow → Option Int
  | [] => none
  | r :: rs =>
      match sqlMaxVersion rs with
      | none => some r.version
      | some m => some (max r.version m)

/-- `SELECT COALESCE(MAX(version), 0) + 1`. -/
def nextVersion (st : PgState) : Int := (sqlMaxVersion st.long_term).getD 0 + 1

/-- Read the latest long-term entry: `ORDER BY version DESC LIMIT 1`. -/
def read_long_term (st : PgState) : String :=
  match (sortBy byVersionDesc st.long_term).head? with
  | some r => r.content
  | none => ""

/-- Insert a new long-term version and enqueue the embedding job. -/
def write_long_term (st : PgState) (dimensions : Nat) (content : String) :
    PgState :=
  let next_version := nextVersion st
  let record_id := st.lt_next_id
  { st with
    long_term := st.long_term ++ [⟨record_id, content, none, next_version⟩]
    lt_next_id := record_id + 1
    queue :=
      st.queue ++ [⟨long_term_table dimensions, record_id, content, dimensions⟩] }

/-- Memories of the last `days` days: rows with `entry_date >= today - days`
ordered by date descending then id, grouped by the formatted date (Python
dict keyed by `str(entry_date)`, first-occurrence order), each group emitted
under a `# date` header, groups joined by the horizontal-rule separator. -/
def get_recent_memories (dateStr : Int → String) (st : PgState) (today : Int)
    (days : Nat) : String :=
  let cutoff := today - (days : Int)
  let results := sortBy byDateDescId (st.daily.filter (fun r => cutoff ≤ r.entry_date))
  if results.isEmpty then ""
  else
    let keys := results.foldl
      (fun acc r =>
        if acc.contains (dateStr r.entry_date) then acc
        else acc ++ [dateStr r.entry_date]) []
    let parts := keys.map (fun k =>
      "# " ++ k ++ "\n\n" ++
        joinSep "\n"
          ((results.filter (fun r => dateStr r.entry_date == k)).map (·.content)))
    joinSep "\n\n---\n\n" parts

/-- Non-semantic context: optional "Long-term Memory" and "Today's Notes"
sections joined by a blank line; empty string when both are absent. -/
def get_memory_context (st : PgState) (today : Int) : String :=
  let long_term := read_long_term st
  let td := read_today st today
  let parts :=
    (if long_term ≠ "" then ["## Long-term Memory\n" ++ long_term] else []) ++
      (if td ≠ "" then ["## Today's Notes\n" ++ td] else [])
  if parts.isEmpty then "" else joinSep "\n\n" parts

/-- One row returned by the `memory_search_dim<N>` SQL function.  The
similarity is kept as its already-formatted two-decimal string: its numeric
(floating-point) value never influences control flow in the embedded code. -/
structure SearchHit where
  source : String
  source_id : Nat
  content : String
  entry_date : Option String
  simStr : String
deriving Repr, DecidableEq

/-- Model of an attached `EmbeddingService` together with the
`memory_search_dim<N>` SQL function it is used against: `embed` returns
`none` when the embedding call raises, and `search` stands for the
nearest-neighbor SQL function (an external oracle to this embedding). -/
structure EmbServiceModel where
  embed : String → Option (List Int)
  search : List Int → List SearchHit

/-- Semantic context (`get_memory_context_semantic`): without an attached
embedding service, or when embedding raises, or when search returns no rows,
defer to the non-semantic context; otherwise compose the long-term section,
the semantic hits, and today's notes. -/
def get_memory_context_semantic (st : PgState) (today : Int)
    (svc : Option EmbServiceModel) (query : String) : String :=
  match svc with
  | none => get_memory_context st today
  | some s =>
      match s.embed query with
      | none => get_memory_context st today
      | some query_embedding =>
          let results := s.search query_embedding
          if results.isEmpty then get_memory_context st today
          else
            let long_term := read_long_term st
            let parts₀ :=
              if long_term ≠ "" then ["## Long-term Memory\n" ++ long_term] else []
            let semantic_parts := results.map (fun r =>
              let date_info :=
                match r.entry_date with
                | some d => " (" ++ d ++ ")"
                | none => ""
              "- [" ++ r.source ++ date_info ++ " sim=" ++ r.simStr ++ "] " ++
                r.content)
            let parts₁ := parts₀ ++
              (if ¬ semantic_parts.isEmpty then
                ["## Relevant Memories (semantic)\n" ++ joinSep "\n" semantic_parts]
              else [])
            let td := read_today st today
            let parts := parts₁ ++ (if td ≠ "" then ["## Today's Notes\n" ++ td] else [])
            if parts.isEmpty then "" else joinSep "\n\n" parts

end PostgresMemoryStore

/-- One embedding-completion event: the worker's `UPDATE <table> SET
embedding = vec .. WHERE id = rid` against the daily or long-term table. -/
inductive EmbJob
  | daily (rid : Nat) (vec : List Int)
  | longTerm (rid : Nat) (vec : List Int)

/-- Apply one embedding completion to the store state: only the `embedding`
column of the addressed row changes. -/
def applyEmbJob (st : PgState) : EmbJob → PgState
  | .daily rid vec =>
      { st with daily := st.daily.map (fun r =>
          if r.id == rid then { r with embedding := some vec } else r) }
  | .longTerm rid vec =>
      { st with long_term := st.long_term.map (fun r =>
          if r.id == rid then { r with embedding := some vec } else r) }

/-- Apply a sequence of embedding completions. -/
def applyEmbJobs (st : PgState) (jobs : List EmbJob) : PgState :=
  jobs.foldl applyEmbJob st

/-! ## Embedding worker (`baibo/agent/memory_worker.py`,
class `MemoryEmbeddingWorker`)

`_poll_once` after a message has been read from the queue: the embedding
call and the SQL `UPDATE` are the two statements of the `try` block that can
raise, so each is an oracle argument (`embedResult = none` models a raised
embedding error, `updateOk = false` a raised database error on the UPDATE).
The pgmq queue is a list of `(msg_id, message)` pairs; `pgmq.archive`
removes the message from the queue.  The rows of the table the message
names are passed in as `rows`.  The worker dimension (`EmbeddingService
.dimensions` it was constructed with) is threaded through as `workerDim`
so that claims about it can be stated: the source never reads it, nor the
message's `dimensions` field, in `_poll_once`. -/

namespace MemoryEmbeddingWorker

/-- Queue name constant. -/
def QUEUE_NAME : String := "memory_embedding"

/-- Visibility timeout (seconds) used on `pgmq.read`. -/
def VISIBILITY_TIMEOUT : Nat := 30

/-- A generic row of the table a queue message names. -/
structure TableRow where
  id : Nat
  embedding : Option (List Int)
deriving Repr, DecidableEq

/-- Observable effects of one `_poll_once` call on a read message. -/
structure PollEffects where
  embed_called : Bool
  update_called : Bool
  update_succeeded : Bool
  archived : Bool
  processed : Bool
deriving Repr, DecidableEq

/-- The `UPDATE <table> SET embedding = vec, updated_at = now() WHERE id =
record_id` row transformation. -/
def applyUpdate (rows : List TableRow) (record_id : Nat) (vec : List Int) :
    List TableRow :=
  rows.map (fun r => if r.id == record_id then { r with embedding := some vec } else r)

/-- Body of `_poll_once` once a message `(msg_id, msg)` has been read:
extract `table`, `id`, `content` from the message, call the embedding
service, and on success run the UPDATE and archive the message; any raised
error is caught and nothing is archived. -/
def poll_once (workerDim : Nat) (msg_id : Nat) (msg : QueueMsg)
    (embedResult : Option (List Int)) (updateOk : Bool)
    (queue : List (Nat × QueueMsg)) (rows : List TableRow) :
    PollEffects × List (Nat × QueueMsg) × List TableRow :=
  let record_id := msg.id
  match embedResult with
  | none =>
      -- `self.embedding.embed(content)` raised: caught, not archived.
      (⟨true, false, false, false, false⟩, queue, rows)
  | some vec =>
      if updateOk then
        (⟨true, true, true, true, true⟩,
          queue.filter (fun m => !(m.1 == msg_id)),
          applyUpdate rows record_id vec)
      else
        -- the UPDATE raised: caught before the archive call.
        (⟨true, true, false, false, false⟩, queue, rows)

end MemoryEmbeddingWorker

/-! ## OpenAI-compatible HTTP channel (`nanobot/channels/openapi.py`,
class `OpenAPIChannel`) -/

/-- The `error` object of an error response body. -/
structure ErrorBody where
  message : String
  type : String
deriving Repr, DecidableEq

/-- An HTTP response as far as the claims observe it. -/
structure HttpResponse where
  status : Nat
  error : Option ErrorBody
deriving Repr, DecidableEq

namespace OpenAPIChannel

/-- Check the bearer token (`_verify_api_key`): with no configured keys all
requests pass; otherwise the `Authorization` header (missing header reads as
`""`) must start with `"Bearer "` (modelled as its first seven characters
equalling `"Bearer "`) and the rest must be a configured key. -/
def verify_api_key (api_keys : List String) (auth_header : Option String) :
    Bool :=
  if api_keys.isEmpty then true
  else
    let h := auth_header.getD ""
    if h.take 7 == "Bearer " then api_keys.contains (h.drop 7)
    else false

/-- The 401 body returned by `_handle_chat_completions` on auth failure. -/
def auth_error_response : HttpResponse :=
  ⟨401, some ⟨"Invalid API key", "invalid_request_error"⟩⟩

/-- Auth step of `_handle_chat_completions`: `some response` short-circuits
the handler with a 401, `none` lets the request continue. -/
def auth_check (api_keys : List String) (auth_header : Option String) :
    Option HttpResponse :=
  if verify_api_key api_keys auth_header then none
  else some auth_error_response

/-- State of a pending `asyncio.Future` for a non-streaming request. -/
inductive FutureState
  | pending
  | resolved (content : String)
deriving Repr, DecidableEq

/-- The `_pending_responses` mapping from `chat_id` to its result holder. -/
def PendingMap : Type := List (String × FutureState)

/-- Dict removal (`pop(chat_id, None)` for the mapping part). -/
def pmErase (pm : PendingMap) (chat_id : String) : PendingMap :=
  pm.filter (fun kv => !(kv.1 == chat_id))

/-- Dict lookup. -/
def pmLookup (pm : PendingMap) (chat_id : String) : Option FutureState :=
  (pm.find? (fun kv => kv.1 == chat_id)).map (·.2)

/-- Dict insert / overwrite (`self._pending_responses[chat_id] = future`). -/
def pmInsert (pm : PendingMap) (chat_id : String) (v : FutureState) :
    PendingMap :=
  (chat_id, v) :: pmErase pm chat_id

/-- First step of `_handle_non_stream`: install a fresh pending future for
`chat_id`. -/
def start_non_stream (pm : PendingMap) (chat_id : String) : PendingMap :=
  pmInsert pm chat_id .pending

/-- The `asyncio.TimeoutError` branch of `_handle_non_stream`: pop the
holder and answer 504 with a `timeout_error` envelope. -/
def non_stream_timeout (pm : PendingMap) (chat_id : String) :
    PendingMap × HttpResponse :=
  (pmErase pm chat_id, ⟨504, some ⟨"Request timeout", "timeout_error"⟩⟩)

/-- `_on_outbound`: pop the future for the message's `chat_id`; when one is
present and still pending, resolve it with the message content (the second
component is the delivered content, `none` when the outbound is dropped). -/
def on_outbound (pm : PendingMap) (chat_id content : String) :
    PendingMap × Option String :=
  (pmErase pm chat_id,
    match pmLookup pm chat_id with
    | some .pending => some content
    | _ => none)

/-- A `StreamChunk` event record (`nanobot/bus/events.py`). -/
structure StreamChunk where
  content : String
  is_final : Bool := false
  finish_reason : Option String := none
deriving Repr, DecidableEq

/-- The `choices[0]` object of one SSE `chat.completion.chunk` frame, as far
as the claims observe it: `delta_content = none` models an empty `delta`. -/
structure SseChoice where
  delta_content : Option String
  finish_reason : Option String
deriving Repr, DecidableEq

/-- One item written to the SSE response body. -/
inductive SseFrame
  | data (c : SseChoice)
  | streamError (message etype : String)
  | done
deriving Repr, DecidableEq

/-- Build the `choices[0]` object for one chunk: content only when the chunk
text is non-empty; on the final chunk the delta is reset to the empty object
and `finish_reason` defaults to `"stop"`. -/
def chunk_frame (c : StreamChunk) : SseChoice :=
  if c.is_final then ⟨none, some (c.finish_reason.getD "stop")⟩
  else ⟨if c.content ≠ "" then some c.content else none, none⟩

/-- The `stream_callback`: each chunk is put on the queue, followed by a
`None` termination sentinel when the chunk is final. -/
def stream_queue_items (chunks : List StreamChunk) : List (Option StreamChunk) :=
  chunks.flatMap (fun c => some c :: (if c.is_final then [none] else []))

/-- The read loop of `_handle_stream` over the queued items: a sentinel
stops the loop, an exhausted queue is a stream timeout (error frame, stop);
after the loop the `data: [DONE]` marker is written. -/
def sse_loop : List (Option StreamChunk) → List SseFrame
  | [] => [.streamError "Stream timeout" "timeout_error", .done]
  | none :: _ => [.done]
  | some c :: rest => .data (chunk_frame c) :: sse_loop rest

/-- Frames written by `_handle_stream` when the agent emits `chunks`. -/
def handle_stream (chunks : List StreamChunk) : List SseFrame :=
  sse_loop (stream_queue_items chunks)

end OpenAPIChannel

/-! ## Helper lemmas -/

theorem joinSep_cons (sep a : String) {l : List String} (h : l ≠ []) :
    joinSep sep (a :: l) = a ++ sep ++ joinSep sep l := by
  cases l with
  | nil => exact absurd rfl h
  | cons b m => rfl

theorem joinSep_snoc_suffix (sep x : String) (l : List String) :
    ∃ p, joinSep sep (l ++ [x]) = p ++ x := by
  induction l with
  | nil => exact ⟨"", by simp [joinSep]⟩
  | cons a l ih =>
      obtain ⟨p, hp⟩ := ih
      refine ⟨a ++ sep ++ p, ?_⟩
      rw [List.cons_append, joinSep_cons sep a (by simp), hp,
        ← String.append_assoc]

theorem insertSorted_of_le (le : α → α → Bool) (a : α) (l : List α)
    (h : ∀ b ∈ l, le a b = true) : insertSorted le a l = a :: l := by
  cases l with
  | nil => rfl
  | cons b m => simp [insertSorted, h b (by simp)]

theorem sortBy_of_sorted (le : α → α → Bool) {l : List α}
    (h : l.Pairwise (fun a b => le a b = true)) : sortBy le l = l := by
  induction l with
  | nil => rfl
  | cons a l ih =>
      rw [List.pairwise_cons] at h
      rw [sortBy, ih h.2, insertSorted_of_le le a l h.1]

theorem insertSorted_perm (le : α → α → Bool) (a : α) (l : List α) :
    List.Perm (insertSorted le a l) (a :: l) := by
  induction l with
  | nil => exact List.Perm.refl _
  | cons b m ih =>
      by_cases h : le a b = true
      · simp [insertSorted, h]
      · rw [insertSorted, if_neg h]
        exact ((ih.cons b).trans (List.Perm.swap a b m))

theorem sortBy_perm (le : α → α → Bool) (l : List α) : List.Perm (sortBy le l) l := by
  induction l with
  | nil => exact List.Perm.refl _
  | cons a l ih =>
      exact (insertSorted_perm le a (sortBy le l)).trans (ih.cons a)

theorem insertSorted_pairwise (le : α → α → Bool)
    (htrans : ∀ a b c, le a b = true → le b c = true → le a c = true)
    (htot : ∀ a b, le a b = true ∨ le b a = true)
    (a : α) {l : List α} (h : l.Pairwise (fun x y => le x y = true)) :
    (insertSorted le a l).Pairwise (fun x y => le x y = true) := by
  induction l with
  | nil => simp [insertSorted]
  | cons b m ih =>
      rw [List.pairwise_cons] at h
      by_cases hab : le a b = true
      · rw [insertSorted, if_pos hab, List.pairwise_cons]
        refine ⟨?_, List.pairwise_cons.mpr h⟩
        intro y hy
        rcases List.mem_cons.mp hy with rfl | hym
        · exact hab
        · exact htrans a b y hab (h.1 y hym)
      · rw [insertSorted, if_neg hab, List.pairwise_cons]
        refine ⟨?_, ih h.2⟩
        intro y hy
        have hy2 : y ∈ a :: m := (insertSorted_perm le a m).mem_iff.mp hy
        rcases List.mem_cons.mp hy2 with h1 | hym
        · rw [h1]; exact (htot a b).resolve_left hab
        · exact h.1 y hym

theorem sortBy_pairwise (le : α → α → Bool)
    (htrans : ∀ a b c, le a b = true → le b c = true → le a c = true)
    (htot : ∀ a b, le a b = true ∨ le b a = true) (l : List α) :
    (sortBy le l).Pairwise (fun x y => le x y = true) := by
  induction l with
  | nil => simp [sortBy]
  | cons a l ih => exact insertSorted_pairwise le htrans htot a ih

theorem sortBy_head_unique_top (le : α → α → Bool)
    (htrans : ∀ a b c, le a b = true → le b c = true → le a c = true)
    (htot : ∀ a b, le a b = true ∨ le b a = true)
    {l : List α} {x : α} (hx : x ∈ l)
    (hmax : ∀ y ∈ l, y = x ∨ le y x = false) :
    (sortBy le l).head? = some x := by
  have hperm := sortBy_perm le l
  have hsort := sortBy_pairwise le htrans htot l
  have hx' : x ∈ sortBy le l := hperm.mem_iff.mpr hx
  cases hl : sortBy le l with
  | nil => rw [hl] at hx'; cases hx'
  | cons hd t =>
      rw [hl] at hx' hsort
      have hh : hd ∈ l := hperm.mem_iff.mp (by rw [hl]; exact List.mem_cons_self hd t)
      have hd_eq : hd = x := by
        rcases hmax hd hh with h1 | h2
        · exact h1
        · rcases List.mem_cons.mp hx' with hx1 | hx2
          · exact hx1.symm
          · rw [List.pairwise_cons] at hsort
            have := hsort.1 x hx2
            rw [h2] at this
            cases this
      rw [hd_eq]
      rfl

namespace OpenAPIChannel

theorem pmLookup_pmErase_self (pm : PendingMap) (k : String) :
    pmLookup (pmErase pm k) k = none := by
  induction pm with
  | nil => rfl
  | cons kv pm ih =>
      by_cases h : (kv.1 == k) = true
      · simpa [pmErase, pmLookup, List.filter_cons, h] using ih
      · simpa [pmErase, pmLookup, List.filter_cons, h, List.find?] using ih

theorem pmErase_idem (pm : PendingMap) (k : String) :
    pmErase (pmErase pm k) k = pmErase pm k := by
  induction pm with
  | nil => rfl
  | cons kv pm ih =>
      by_cases h : (kv.1 == k) = true
      · simpa [pmErase, List.filter_cons, h] using ih
      · simpa [pmErase, List.filter_cons, h] using ih

end OpenAPIChannel

namespace PostgresMemoryStore

theorem version_le_sqlMax {l : List LongTermRow} {r : LongTermRow}
    (h : r ∈ l) : r.version ≤ (sqlMaxVersion l).getD 0 := by
  induction l with
  | nil => cases h
  | cons a as ih =>
      rcases List.mem_cons.mp h with rfl | h2
      · rw [sqlMaxVersion]
        cases hs : sqlMaxVersion as with
        | none => simp
        | some m => simp [le_max_left]
      · have hle := ih h2
        rw [sqlMaxVersion]
        cases hs : sqlMaxVersion as with
        | none =>
            exfalso
            cases as with
            | nil => cases h2
            | cons b bs =>
                rw [sqlMaxVersion] at hs
                revert hs
                cases sqlMaxVersion bs <;> simp
        | some m =>
            rw [hs] at hle
            simp only [Option.getD_some] at hle ⊢
            exact le_trans hle (le_max_right _ _)

end PostgresMemoryStore

theorem applyEmbJobs_long_term_shape (st : PgState) (jobs : List EmbJob) :
    ∃ g : LongTermRow → LongTermRow,
      (applyEmbJobs st jobs).long_term = st.long_term.map g ∧
      ∀ r, (g r).version = r.version ∧ (g r).content = r.content := by
  induction jobs generalizing st with
  | nil => exact ⟨id, by simp [applyEmbJobs], by simp⟩
  | cons j js ih =>
      obtain ⟨g, hmap, hg⟩ := ih (applyEmbJob st j)
      have hstep : applyEmbJobs st (j :: js) = applyEmbJobs (applyEmbJob st j) js := rfl
      cases j with
      | daily rid vec =>
          exact ⟨g, by rw [hstep, hmap]; rfl, hg⟩
      | longTerm rid vec =>
          refine ⟨fun r => g (if r.id == rid then { r with embedding := some vec } else r),
            ?_, ?_⟩
          · rw [hstep, hmap]
            show ((st.long_term.map
              (fun r => if r.id == rid then { r with embedding := some vec } else r)).map g) = _
            rw [List.map_map]
            rfl
          · intro r
            constructor
            · rw [(hg _).1]
              by_cases h : (r.id == rid) = true <;> simp [h]
            · rw [(hg _).2]
              by_cases h : (r.id == rid) = true <;> simp [h]

/-! ## Claim theorems -/

/-- C1 (counterexample): the claim "a queue message whose `dimensions` field
differs from the worker's configured dimension is skipped — no embedding
call, no UPDATE, no archive" is false on the code: at a concrete message
with `dimensions = 768` read by a worker configured for 1536, `_poll_once`
calls the embedding service, runs the UPDATE on the named table, and
archives the message. -/
theorem poll_once_processes_mismatched_dimensions :
    (768 : Nat) ≠ 1536
  ∧ (MemoryEmbeddingWorker.poll_once 1536 1
      ⟨PostgresMemoryStore.daily_table 768, 5, "hello", 768⟩
      (some [0]) true
      [(1, ⟨PostgresMemoryStore.daily_table 768, 5, "hello", 768⟩)]
      [⟨5, none⟩]).1.embed_called = true
  ∧ (MemoryEmbeddingWorker.poll_once 1536 1
      ⟨PostgresMemoryStore.daily_table 768, 5, "hello", 768⟩
      (some [0]) true
      [(1, ⟨PostgresMemoryStore.daily_table 768, 5, "hello", 768⟩)]
      [⟨5, none⟩]).1.update_called = true
  ∧ (MemoryEmbeddingWorker.poll_once 1536 1
      ⟨PostgresMemoryStore.daily_table 768, 5, "hello", 768⟩
      (some [0]) true
      [(1, ⟨PostgresMemoryStore.daily_table 768, 5, "hello", 768⟩)]
      [⟨5, none⟩]).1.archived = true
  ∧ (MemoryEmbeddingWorker.poll_once 1536 1
      ⟨PostgresMemoryStore.daily_table 768, 5, "hello", 768⟩
      (some [0]) true
      [(1, ⟨PostgresMemoryStore.daily_table 768, 5, "hello", 768⟩)]
      [⟨5, none⟩]).2.2 = [⟨5, some [0]⟩] := by
  refine ⟨by decide, ?_, ?_, ?_, ?_⟩ <;> rfl

/-- C1 (amended): `_poll_once` never inspects the message's `dimensions`
field nor the worker's configured dimension: its result is identical for
any two values of either, and the embedding call is always performed for a
read message. -/
theorem poll_once_ignores_dimensions (d₁ d₂ msg_id : Nat) (table : String)
    (rid : Nat) (content : String) (dm₁ dm₂ : Nat)
    (embedResult : Option (List Int)) (updateOk : Bool)
    (queue : List (Nat × QueueMsg))
    (rows : List MemoryEmbeddingWorker.TableRow) :
    MemoryEmbeddingWorker.poll_once d₁ msg_id ⟨table, rid, content, dm₁⟩
        embedResult updateOk queue rows
      = MemoryEmbeddingWorker.poll_once d₂ msg_id ⟨table, rid, content, dm₂⟩
          embedResult updateOk queue rows
    ∧ (MemoryEmbeddingWorker.poll_once d₁ msg_id ⟨table, rid, content, dm₁⟩
        embedResult updateOk queue rows).1.embed_called = true := by
  cases embedResult <;> cases updateOk <;>
    simp [MemoryEmbeddingWorker.poll_once]

/-- C5: a read message is archived exactly when both the embedding call and
the UPDATE succeed (and then it is removed from the queue); on an embedding
or UPDATE failure nothing is archived and the queue is left unchanged, so
the message is still there to reappear after the visibility timeout. -/
theorem poll_once_archive_iff_success (workerDim msg_id : Nat)
    (msg : QueueMsg) (embedResult : Option (List Int)) (updateOk : Bool)
    (queue : List (Nat × QueueMsg))
    (rows : List MemoryEmbeddingWorker.TableRow) :
    (MemoryEmbeddingWorker.poll_once workerDim msg_id msg embedResult updateOk
        queue rows).1.archived = (embedResult.isSome && updateOk)
    ∧ (MemoryEmbeddingWorker.poll_once workerDim msg_id msg embedResult updateOk
        queue rows).1.processed = (embedResult.isSome && updateOk)
    ∧ (MemoryEmbeddingWorker.poll_once workerDim msg_id msg embedResult updateOk
        queue rows).2.1 =
      (if embedResult.isSome && updateOk then
        queue.filter (fun m => !(m.1 == msg_id))
      else queue) := by
  cases embedResult <;> cases updateOk <;>
    simp [MemoryEmbeddingWorker.poll_once]

/-- C9: with no embedding service attached, the semantic memory context of
the relational store is exactly the non-semantic memory context. -/
theorem semantic_context_without_service (st : PgState) (today : Int)
    (query : String) :
    PostgresMemoryStore.get_memory_context_semantic st today none query
      = PostgresMemoryStore.get_memory_context st today := rfl

/-- C7: for the chunk sequence `("hel", is_final=false)` then
`("lo", is_final=true, finish_reason="stop")` the streaming handler writes
exactly, in order: one data frame whose delta content is `"hel"`, one data
frame with an empty delta and finish reason `"stop"`, then the `[DONE]`
marker. -/
theorem stream_sse_frames_exact :
    OpenAPIChannel.handle_stream
      [⟨"hel", false, none⟩, ⟨"lo", true, some "stop"⟩]
      = [.data ⟨some "hel", none⟩, .data ⟨none, some "stop"⟩, .done] := by
  decide

/-- C6: when a non-streaming request times out waiting for its outbound,
the channel answers 504 with error type `timeout_error`, and an outbound
message delivered later for the same `chat_id` is silently dropped: the
holder is gone from the pending map, nothing is resolved and the map is
unchanged. -/
theorem non_stream_timeout_504_and_drop (pm : OpenAPIChannel.PendingMap)
    (chat_id late_content : String) :
    (OpenAPIChannel.non_stream_timeout
        (OpenAPIChannel.start_non_stream pm chat_id) chat_id).2.status = 504
  ∧ (OpenAPIChannel.non_stream_timeout
        (OpenAPIChannel.start_non_stream pm chat_id) chat_id).2.error =
      some ⟨"Request timeout", "timeout_error"⟩
  ∧ OpenAPIChannel.on_outbound
      (OpenAPIChannel.non_stream_timeout
        (OpenAPIChannel.start_non_stream pm chat_id) chat_id).1
      chat_id late_content
    = ((OpenAPIChannel.non_stream_timeout
        (OpenAPIChannel.start_non_stream pm chat_id) chat_id).1, none) := by
  refine ⟨rfl, rfl, ?_⟩
  show OpenAPIChannel.on_outbound
      (OpenAPIChannel.pmErase (OpenAPIChannel.start_non_stream pm chat_id) chat_id)
      chat_id late_content = _
  rw [OpenAPIChannel.on_outbound, OpenAPIChannel.pmErase_idem,
    OpenAPIChannel.pmLookup_pmErase_self]
  rfl

/-- C8: with a non-empty api-keys allow-list, a request whose Authorization
header is missing, does not begin with `"Bearer "`, or carries a token that
is not in the list, is answered 401 with error type `invalid_request_error`;
with no allow-list configured the auth check passes every request. -/
theorem auth_allowlist_behavior (api_keys : List String)
    (auth_header : Option String) :
    (api_keys ≠ [] →
      (∀ h, auth_header = some h →
        (h.take 7 == "Bearer ") = false ∨ api_keys.contains (h.drop 7) = false) →
      OpenAPIChannel.auth_check api_keys auth_header =
        some ⟨401, some ⟨"Invalid API key", "invalid_request_error"⟩⟩)
  ∧ (api_keys = [] → OpenAPIChannel.auth_check api_keys auth_header = none) := by
  constructor
  · intro hne hbad
    have hver : OpenAPIChannel.verify_api_key api_keys auth_header = false := by
      rw [OpenAPIChannel.verify_api_key]
      rw [if_neg (by simpa [List.isEmpty_iff] using hne)]
      cases auth_header with
      | none =>
          show (if ((none : Option String).getD "").take 7 == "Bearer " then _ else false) = false
          rw [if_neg (by decide)]
      | some h =>
          rcases hbad h rfl with h1 | h2
          · simp only [Option.getD_some]
            rw [if_neg (by simp [h1])]
          · simp only [Option.getD_some]
            by_cases hb : (h.take 7 == "Bearer ") = true
            · rw [if_pos hb]; exact h2
            · rw [if_neg hb]
    rw [OpenAPIChannel.auth_check, hver]
    rfl
  · intro he
    subst he
    rfl

/-- C8 witness: with `api_keys = ["k1"]`, a request whose bearer token is
`"k2"` is rejected with the 401 invalid-request envelope, and with no
configured keys the same request passes. -/
theorem auth_allowlist_behavior_witness :
    OpenAPIChannel.auth_check ["k1"] (some "Bearer k2") =
      some ⟨401, some ⟨"Invalid API key", "invalid_request_error"⟩⟩
  ∧ OpenAPIChannel.auth_check [] (some "Bearer k2") = none := by
  constructor
  · exact (auth_allowlist_behavior ["k1"] (some "Bearer k2")).1
      (by decide)
      (by intro h hh; injection hh with hh2; rw [← hh2]; right; rfl)
  · exact (auth_allowlist_behavior [] (some "Bearer k2")).2 rfl

/-- C10: with a non-empty allow-list, an Authorization header that does not
begin with exactly `"Bearer "` is rejected (401 envelope) no matter what the
header is — even when the full header value is itself a listed key — and in
general the check succeeds exactly when the allow-list is empty or the
substring after `"Bearer "` is, by exact string membership, in the list. -/
theorem verify_api_key_bearer_exact_membership (api_keys : List String)
    (h : String) :
    (api_keys ≠ [] → (h.take 7 == "Bearer ") = false →
      OpenAPIChannel.auth_check api_keys (some h) =
        some ⟨401, some ⟨"Invalid API key", "invalid_request_error"⟩⟩)
  ∧ (OpenAPIChannel.verify_api_key api_keys (some h) = true ↔
      (api_keys = [] ∨
        ((h.take 7 == "Bearer ") = true ∧ api_keys.contains (h.drop 7) = true))) := by
  constructor
  · intro hne hb
    have hver : OpenAPIChannel.verify_api_key api_keys (some h) = false := by
      rw [OpenAPIChannel.verify_api_key]
      rw [if_neg (by simpa [List.isEmpty_iff] using hne)]
      simp only [Option.getD_some]
      rw [if_neg (by simp [hb])]
    rw [OpenAPIChannel.auth_check, hver]
    rfl
  · rw [OpenAPIChannel.verify_api_key]
    by_cases he : api_keys.isEmpty = true
    · rw [if_pos he]
      simp [List.isEmpty_iff.mp he]
    · rw [if_neg he]
      have hne : ¬ api_keys = [] := by simpa [List.isEmpty_iff] using he
      by_cases hb : (h.take 7 == "Bearer ") = true
      · simp only [Option.getD_some]
        rw [if_pos hb]
        constructor
        · intro hc; exact Or.inr ⟨hb, hc⟩
        · rintro (hnil | ⟨_, hc⟩)
          · exact absurd hnil hne
          · exact hc
      · simp only [Option.getD_some]
        rw [if_neg hb]
        constructor
        · intro hfalse; cases hfalse
        · rintro (hnil | ⟨hb2, _⟩)
          · exact absurd hnil hne
          · exact absurd hb2 hb

/-- C10 witness: with allow-list `["bearer x"]` and the header literally
equal to that listed value (lowercase `bearer`, so it does not begin with
`"Bearer "`), the request is still rejected with the 401 envelope. -/
theorem verify_api_key_bearer_exact_membership_witness :
    ("bearer x" ∈ ["bearer x"])
  ∧ OpenAPIChannel.auth_check ["bearer x"] (some "bearer x") =
      some ⟨401, some ⟨"Invalid API key", "invalid_request_error"⟩⟩ := by
  refine ⟨by decide, ?_⟩
  exact (verify_api_key_bearer_exact_membership ["bearer x"] "bearer x").1
    (by decide) (by decide)

/-- C3: on both backends, writing long-term memory twice and then reading it
back returns the second content; for the relational backend this holds for
any store state and independently of which embedding jobs (on either table)
have completed in the meantime. -/
theorem write_long_term_last_write_wins :
    (∀ (s : MemoryStore) (fs : FS) (c₁ c₂ : String),
      s.read_long_term (s.write_long_term (s.write_long_term fs c₁) c₂) = c₂)
  ∧ (∀ (st : PgState) (dimensions : Nat) (c₁ c₂ : String) (jobs : List EmbJob),
      PostgresMemoryStore.read_long_term
        (applyEmbJobs
          (PostgresMemoryStore.write_long_term
            (PostgresMemoryStore.write_long_term st dimensions c₁)
            dimensions c₂)
          jobs) = c₂) := by
  constructor
  · intro s fs c₁ c₂
    rfl
  · intro st dimensions c₁ c₂ jobs
    have htrans : ∀ a b c, PostgresMemoryStore.byVersionDesc a b = true →
        PostgresMemoryStore.byVersionDesc b c = true →
        PostgresMemoryStore.byVersionDesc a c = true := by
      intro a b c hab hbc
      simp only [PostgresMemoryStore.byVersionDesc, decide_eq_true_eq] at hab hbc ⊢
      omega
    have htot : ∀ a b, PostgresMemoryStore.byVersionDesc a b = true ∨
        PostgresMemoryStore.byVersionDesc b a = true := by
      intro a b
      simp only [PostgresMemoryStore.byVersionDesc, decide_eq_true_eq]
      omega
    have hst₁ :
        (PostgresMemoryStore.write_long_term st dimensions c₁).long_term =
          st.long_term ++
            [⟨st.lt_next_id, c₁, none, PostgresMemoryStore.nextVersion st⟩] := rfl
    have hst₂ :
        (PostgresMemoryStore.write_long_term
          (PostgresMemoryStore.write_long_term st dimensions c₁)
          dimensions c₂).long_term =
          (PostgresMemoryStore.write_long_term st dimensions c₁).long_term ++
            [⟨(PostgresMemoryStore.write_long_term st dimensions c₁).lt_next_id,
              c₂, none,
              PostgresMemoryStore.nextVersion
                (PostgresMemoryStore.write_long_term st dimensions c₁)⟩] := rfl
    obtain ⟨g, hmap, hg⟩ :=
      applyEmbJobs_long_term_shape
        (PostgresMemoryStore.write_long_term
          (PostgresMemoryStore.write_long_term st dimensions c₁) dimensions c₂)
        jobs
    set st₁ := PostgresMemoryStore.write_long_term st dimensions c₁ with hst₁d
    set r₂ : LongTermRow :=
      ⟨st₁.lt_next_id, c₂, none, PostgresMemoryStore.nextVersion st₁⟩ with hr₂
    have hvmax :
        ∀ y ∈ (PostgresMemoryStore.write_long_term st₁ dimensions c₂).long_term,
          y = r₂ ∨ y.version < r₂.version := by
      intro y hy
      rw [hst₂] at hy
      rcases List.mem_append.mp hy with hy1 | hy2
      · right
        have hle : y.version ≤ (PostgresMemoryStore.sqlMaxVersion st₁.long_term).getD 0 :=
          PostgresMemoryStore.version_le_sqlMax hy1
        have hv : r₂.version =
            (PostgresMemoryStore.sqlMaxVersion st₁.long_term).getD 0 + 1 := rfl
        omega
      · left
        exact List.mem_singleton.mp hy2
    have hhead :
        (sortBy PostgresMemoryStore.byVersionDesc
          (applyEmbJobs (PostgresMemoryStore.write_long_term st₁ dimensions c₂)
            jobs).long_term).head? = some (g r₂) := by
      rw [hmap]
      apply sortBy_head_unique_top _ htrans htot
      · refine List.mem_map_of_mem g ?_
        rw [hst₂]
        exact List.mem_append_right _ (List.mem_singleton.mpr rfl)
      · intro y hy
        obtain ⟨z, hz, hzy⟩ := List.mem_map.mp hy
        rcases hvmax z hz with hz2 | hlt
        · left
          rw [← hzy, hz2]
        · right
          have h1 : (g r₂).version = r₂.version := (hg r₂).1
          have h2 : y.version = z.version := by rw [← hzy]; exact (hg z).1
          simp only [PostgresMemoryStore.byVersionDesc]
          apply decide_eq_false
          omega
    simp only [PostgresMemoryStore.read_long_term, hhead]
    exact (hg r₂).2

/-- C4: on both backends, appending to today's notes and reading them back
yields a string with the appended content as a suffix (after the
auto-inserted header on the first write of the day); for the relational
backend this holds for every state whose daily ids are strictly increasing
and below the id counter (which every sequence of inserts maintains). -/
theorem append_today_read_today_suffix :
    (∀ (s : MemoryStore) (fs : FS) (x : String),
      ∃ p, s.read_today (s.append_today fs x) = p ++ x)
  ∧ (∀ (st : PgState) (dimensions : Nat) (today : Int) (x : String),
      st.daily.Pairwise (fun a b => a.id < b.id) →
      (∀ r ∈ st.daily, r.id < st.daily_next_id) →
      ∃ p, PostgresMemoryStore.read_today
        (PostgresMemoryStore.append_today st dimensions today x) today = p ++ x) := by
  constructor
  · intro s fs x
    cases hfs : fs s.get_today_file with
    | some existing =>
        refine ⟨existing ++ "\n", ?_⟩
        simp only [MemoryStore.read_today, MemoryStore.append_today, hfs, fsWrite]
        rw [if_pos (by simp)]
    | none =>
        refine ⟨"# " ++ s.dateStr s.today ++ "\n\n", ?_⟩
        simp only [MemoryStore.read_today, MemoryStore.append_today, hfs, fsWrite]
        rw [if_pos (by simp)]
  · intro st dimensions today x hpair hbound
    have hfilter :
        (PostgresMemoryStore.append_today st dimensions today x).daily.filter
            (fun r => r.entry_date == today) =
          st.daily.filter (fun r => r.entry_date == today) ++
            [(⟨st.daily_next_id, today, x, none⟩ : DailyRow)] := by
      simp only [PostgresMemoryStore.append_today]
      rw [List.filter_append]
      congr 1
      simp [List.filter]
    have hsorted :
        (st.daily.filter (fun r => r.entry_date == today) ++
            [(⟨st.daily_next_id, today, x, none⟩ : DailyRow)]).Pairwise
          (fun a b => PostgresMemoryStore.byId a b = true) := by
      rw [List.pairwise_append]
      refine ⟨?_, List.pairwise_singleton _ _, ?_⟩
      · exact ((List.Pairwise.sublist (List.filter_sublist _) hpair).imp
          (fun h => by simp only [PostgresMemoryStore.byId, decide_eq_true_eq]; omega))
      · intro a ha b hb
        have hlt := hbound a (List.mem_of_mem_filter ha)
        have hb2 := List.mem_singleton.mp hb
        subst hb2
        simp only [PostgresMemoryStore.byId, decide_eq_true_eq]
        omega
    simp only [PostgresMemoryStore.read_today]
    rw [hfilter, sortBy_of_sorted _ hsorted]
    rw [if_neg (by simp)]
    rw [List.map_append]
    simpa using joinSep_snoc_suffix "\n"
      x ((st.daily.filter (fun r => r.entry_date == today)).map (·.content))

/-- C4 witness: a concrete first write of the day on the file backend, and a
concrete insert into a one-row relational state, both end in the appended
content. -/
theorem append_today_read_today_suffix_witness :
    (∃ p, MemoryStore.read_today ⟨fun i => toString i, 100⟩
        (MemoryStore.append_today ⟨fun i => toString i, 100⟩ (fun _ => none)
          "pizza is great") = p ++ "pizza is great")
  ∧ (∃ p, PostgresMemoryStore.read_today
        (PostgresMemoryStore.append_today ⟨[⟨1, 100, "hi", none⟩], [], [], 2, 1⟩
          1536 100 "pizza is great") 100 = p ++ "pizza is great") := by
  constructor
  · exact append_today_read_today_suffix.1 ⟨fun i => toString i, 100⟩
      (fun _ => none) "pizza is great"
  · exact append_today_read_today_suffix.2 ⟨[⟨1, 100, "hi", none⟩], [], [], 2, 1⟩
      1536 100 "pizza is great" (by decide) (by decide)

/-- C2 (counterexample): the claim "`get_recent_memories(days=0)` returns
the empty string on every backend" is false on the relational backend: with
one row dated today, `days = 0` gives cutoff `entry_date >= today`, so
today's row is returned (rendered under its date header), not `""`. -/
theorem pg_get_recent_memories_zero_days_nonempty :
    PostgresMemoryStore.get_recent_memories (fun i => toString i)
      ⟨[⟨1, 100, "pasta", none⟩], [], [], 2, 1⟩ 100 0 ≠ "" := by decide

/-- C2 (amended): on the file backend `get_recent_memories(0)` is the empty
string and `get_recent_memories(1)` is exactly today's file content when it
exists; on the relational backend the cutoff `entry_date >= today - days`
makes `days = 0` return today's entries under a `# date` header and
`days = 1` additionally include the previous day's entries. -/
theorem get_recent_memories_window_behavior :
    (∀ (s : MemoryStore) (fs : FS), s.get_recent_memories fs 0 = "")
  ∧ (∀ (s : MemoryStore) (fs : FS) (c : String),
      fs (s.dateStr s.today ++ ".md") = some c →
      s.get_recent_memories fs 1 = c)
  ∧ PostgresMemoryStore.get_recent_memories (fun i => toString i)
      ⟨[⟨1, 100, "pasta", none⟩], [], [], 2, 1⟩ 100 0 = "# 100\n\npasta"
  ∧ PostgresMemoryStore.get_recent_memories (fun i => toString i)
      ⟨[⟨1, 99, "older note", none⟩, ⟨2, 100, "today note", none⟩], [], [], 3, 1⟩
      100 1
      = "# 100\n\ntoday note\n\n---\n\n# 99\n\nolder note" := by
  refine ⟨?_, ?_, by decide, by decide⟩
  · intro s fs
    rfl
  · intro s fs c h
    have hr : List.range 1 = [0] := by decide
    simp only [MemoryStore.get_recent_memories, hr, List.filterMap_cons,
      List.filterMap_nil, Nat.cast_zero, sub_zero, h]
    rfl

/-- C2 witness: concrete file-backend states for the two proved file
clauses: one today file read back whole at `days = 1`, and the empty window
at `days = 0`. -/
theorem get_recent_memories_window_behavior_witness :
    MemoryStore.get_recent_memories ⟨fun i => toString i, 100⟩
        (fun q => if q == "100.md" then some "# 100\n\nhello" else none) 1
      = "# 100\n\nhello"
  ∧ MemoryStore.get_recent_memories ⟨fun i => toString i, 100⟩ (fun _ => none) 0
      = "" := by
  constructor
  · exact get_recent_memories_window_behavior.2.1 ⟨fun i => toString i, 100⟩
      (fun q => if q == "100.md" then some "# 100\n\nhello" else none)
      "# 100\n\nhello" (by decide)
  · exact get_recent_memories_window_behavior.1 ⟨fun i => toString i, 100⟩
      (fun _ => none)
